import Mathlib

/-!
# Event delivery worker

A shallow embedding of `main.go` (package `main`): the backoff policy
(`getBackoffDuration`), the destination dispatcher (`hitEndpoint`), the retrying
dispatcher (`hitEndpointWithBackoff`), the fanout coordinator (`fanOutRequests`), the
dequeue loop (`deliveryWorker`) and the start-up configuration (`redisClient`).

Conventions.

* `time.Duration` is a signed 64-bit count of nanoseconds: an `Int` wrapped by
  `wrapInt64` after the arithmetic the source performs on it.
* A Go panic is the `none` (or `Except.error`) result of the function that panics.
* Side effects are recorded, in program order, as a list of `Action`s.
* What the outside world answers is an explicit argument: `outs : Nat → HttpResult`
  is the stream of answers the destination will give to the successive `http.Get`
  calls; `up : Bool` says whether the store executes the transaction that is sent.
* The `for` loop of `hitEndpointWithBackoff` is run with a fuel argument; running
  out of fuel is the exit `Exit.noFuel`, distinct from a return.
-/

namespace EventDelivery

/-! ## Data model -/

/-- The Go struct `Event` (JSON fields `userId`, `payload`). -/
structure Event where
  UserID : String
  Payload : String
  deriving DecidableEq, Repr

/-- Key of the pending queue. -/
def EVENT_KEY : String := "queued_events"

/-- Key of the in-flight list. -/
def PROCESSING_KEY : String := "processing_events"

/-! ## Durations -/

/-- Two's complement wrap-around of a mathematical integer into `int64`. -/
def wrapInt64 (x : Int) : Int := (x + 2 ^ 63) % 2 ^ 64 - 2 ^ 63

/-- The constant `time.Millisecond`, in nanoseconds. -/
def Millisecond : Int := 1000000

/-- The constant `time.Second`, in nanoseconds. -/
def Second : Int := 1000000000

/-- The function `getBackoffDuration`: `base * (1 << retry)` on `int64`, with
`base := 1 * time.Second`. A negative shift count is a run-time panic in Go (`none`);
the shift and the product wrap around. -/
def getBackoffDuration (retry : Int) : Option Int :=
  if retry < 0 then none
  else
    let base := wrapInt64 (1 * Second)
    some (wrapInt64 (base * wrapInt64 (1 * 2 ^ retry.toNat)))

/-! ## Effects -/

/-- The first error of a store command: `redis.Nil` (no value) or any other failure. -/
inductive RedisErr
  | nil
  | failure
  deriving DecidableEq, Repr

/-- The type `redis.StringCmd`, reduced to what the worker reads: `Val()` and `Err()`. -/
structure StringCmd where
  val : String
  err : Option RedisErr
  deriving DecidableEq, Repr

/-- Observable effects, in program order. -/
inductive Action
  | httpGet (endpoint : String)
  | sleep (d : Int)
  | txRPopLPush (src dst : String)
  | txLRem (key : String) (count : Int) (value : String)
  | go (event : Event) (rpopResult : StringCmd)
  deriving DecidableEq, Repr

/-- The endpoints of the delivery attempts of a trace, in order. -/
def attempts : List Action → List String
  | [] => []
  | .httpGet ep :: t => ep :: attempts t
  | _ :: t => attempts t

/-- The durations of the sleeps of a trace, in order. -/
def sleeps : List Action → List Int
  | [] => []
  | .sleep d :: t => d :: sleeps t
  | _ :: t => sleeps t

/-- The values of the in-flight removals (`LRem` on `PROCESSING_KEY`, count 0) of a trace. -/
def cleanups : List Action → List (String × Int × String)
  | [] => []
  | .txLRem k c v :: t => (k, c, v) :: cleanups t
  | _ :: t => cleanups t

/-! ## Destination dispatcher -/

/-- What `http.Get` gives back: an error, or a response with a status code. -/
inductive HttpResult
  | transportError
  | response (statusCode : Int)
  deriving DecidableEq, Repr

/-- The constant `http.StatusOK`. -/
def StatusOK : Int := 200

/-- The error value of `hitEndpoint`. -/
inductive HitError
  | transport
  | badStatus (statusCode : Int)
  deriving DecidableEq, Repr

/-- The function `hitEndpoint`, applied to the answer of `http.Get(endpoint)`:
`none` is the `nil` error. -/
def hitEndpoint (answer : HttpResult) : Option HitError :=
  match answer with
  | .transportError => some .transport
  | .response code => if code ≠ StatusOK then some (.badStatus code) else none

/-! ## Retrying dispatcher -/

/-- How a run ended. -/
inductive Exit
  | returned
  | panicked
  | noFuel
  deriving DecidableEq, Repr

/-- A run: its effects and how it ended. -/
structure Run where
  trace : List Action
  exit : Exit
  deriving DecidableEq, Repr

/-- The local `maxRetries := 5` of `hitEndpointWithBackoff`. -/
def maxRetries : Int := 5

/-- The `for` loop of `hitEndpointWithBackoff`, entered with the current value of
`retry`; `outs` are the answers to the `http.Get` calls still to come. -/
def hitEndpointLoop (endpoint : String) : Nat → Int → (Nat → HttpResult) → Run
  | 0, _, _ => ⟨[], .noFuel⟩
  | fuel + 1, retry, outs =>
    match hitEndpoint (outs 0) with
    | none => ⟨[.httpGet endpoint], .returned⟩
    | some _ =>
      let retry := retry + 1
      if retry > maxRetries then ⟨[.httpGet endpoint], .returned⟩
      else
        match getBackoffDuration retry with
        | none => ⟨[.httpGet endpoint], .panicked⟩
        | some backoffDuration =>
          let rest := hitEndpointLoop endpoint fuel retry (fun i => outs (i + 1))
          ⟨.httpGet endpoint :: .sleep backoffDuration :: rest.trace, rest.exit⟩

/-- The function `hitEndpointWithBackoff` (`retry := 0`, then the loop). The event is
not used by the body. -/
def hitEndpointWithBackoff (fuel : Nat) (outs : Nat → HttpResult) (endpoint : String)
    (_event : Event) : Run :=
  hitEndpointLoop endpoint fuel 0 outs

/-! ## Queue store -/

/-- The lists held by the store, by key; an absent key is the empty list. The head of
a list is its left end. -/
abbrev Store := String → List String

/-- Replace the list at one key. -/
def Store.set (s : Store) (key : String) (l : List String) : Store :=
  fun k => if k = key then l else s k

/-- The store command RPOPLPUSH: pop the last element of `src` and push it on the left
of `dst`; a `redis.Nil` reply and no change when `src` is empty. -/
def rpoplpush (s : Store) (src dst : String) : StringCmd × Store :=
  match (s src).getLast? with
  | none => (⟨"", some .nil⟩, s)
  | some v =>
    let s1 := s.set src (s src).dropLast
    (⟨v, none⟩, s1.set dst (v :: s1 dst))

/-- Remove the first `n` elements equal to `v`. -/
def removeFirst (v : String) : Nat → List String → List String
  | 0, l => l
  | _, [] => []
  | n + 1, x :: t => if x = v then removeFirst v n t else x :: removeFirst v (n + 1) t

/-- The store command LREM on one list: `count > 0` removes the first `count`
occurrences from the left, `count < 0` from the right, `count = 0` all of them. -/
def lremList (count : Int) (v : String) (l : List String) : List String :=
  if count = 0 then l.filter (fun x => decide (x ≠ v))
  else if count > 0 then removeFirst v count.toNat l
  else (removeFirst v (-count).toNat l.reverse).reverse

/-- The store command LREM. -/
def lrem (s : Store) (key : String) (count : Int) (v : String) : Store :=
  s.set key (lremList count v (s key))

/-- A `TxPipeline` holding one `RPopLPush`, then `Exec`: the command, the error of
`Exec` (the first error among the commands) and the store afterwards. A transaction
the store does not execute (`up = false`) fails and changes nothing. -/
def txRPopLPush (up : Bool) (s : Store) (src dst : String) :
    StringCmd × Option RedisErr × Store :=
  if up then
    let r := rpoplpush s src dst
    (r.1, r.1.err, r.2)
  else (⟨"", some .failure⟩, some .failure, s)

/-- A `TxPipeline` holding one `LRem`, then `Exec`: the error of `Exec` and the store
afterwards. -/
def txLRem (up : Bool) (s : Store) (key : String) (count : Int) (v : String) :
    Option RedisErr × Store :=
  if up then (none, lrem s key count v) else (some .failure, s)

/-! ## Fanout coordinator -/

/-- First destination of `fanOutRequests`. -/
def dest1 : String := "https://event-delivery-dest-1.deno.dev/"

/-- Second destination of `fanOutRequests`. -/
def dest2 : String := "https://event-delivery-dest-2.deno.dev/"

/-- Third destination of `fanOutRequests`. -/
def dest3 : String := "https://event-delivery-dest-3.deno.dev/"

/-- A run of `fanOutRequests`: its effects, how it ended, and the store after it. -/
structure FanOut where
  trace : List Action
  exit : Exit
  store : Store

/-- The function `fanOutRequests`. `net ep` is the stream of answers of endpoint `ep`;
`s` is the store as it stands when the deferred removal executes (the three
dispatches do not touch the store). The `defer` statement comes after the three
calls, so the removal is registered, and run at the return, only when all three
calls have returned. -/
def fanOutRequests (fuel : Nat) (net : String → Nat → HttpResult) (up : Bool)
    (event : Event) (rpopResult : StringCmd) (s : Store) : FanOut :=
  let r1 := hitEndpointWithBackoff fuel (net dest1) dest1 event
  match r1.exit with
  | .returned =>
    let r2 := hitEndpointWithBackoff fuel (net dest2) dest2 event
    match r2.exit with
    | .returned =>
      let r3 := hitEndpointWithBackoff fuel (net dest3) dest3 event
      match r3.exit with
      | .returned =>
        let done := txLRem up s PROCESSING_KEY 0 rpopResult.val
        ⟨r1.trace ++ r2.trace ++ r3.trace ++ [.txLRem PROCESSING_KEY 0 rpopResult.val],
          .returned, done.2⟩
      | e => ⟨r1.trace ++ r2.trace ++ r3.trace, e, s⟩
    | e => ⟨r1.trace ++ r2.trace, e, s⟩
  | e => ⟨r1.trace, e, s⟩

/-! ## Dequeue loop -/

/-- The zero value of `Event` (`var event Event`). -/
def zeroEvent : Event := ⟨"", ""⟩

/-- One iteration of the `for` loop of `deliveryWorker`: its effects and the store
afterwards. -/
structure Iteration where
  trace : List Action
  store : Store

/-- One iteration of the `for` loop of `deliveryWorker`. `unmarshal raw target` is
`json.Unmarshal([]byte(raw), &target)`: the new contents of the target and whether an
error was returned; the iteration drops that error. -/
def deliveryWorkerIter (unmarshal : String → Event → Event × Bool) (up : Bool)
    (s : Store) : Iteration :=
  let r := txRPopLPush up s EVENT_KEY PROCESSING_KEY
  let rpopResult := r.1
  let err := r.2.1
  if err ≠ none then
    ⟨[.txRPopLPush EVENT_KEY PROCESSING_KEY, .sleep (100 * Millisecond)], r.2.2⟩
  else if rpopResult.err ≠ none then
    ⟨[.txRPopLPush EVENT_KEY PROCESSING_KEY, .sleep (100 * Millisecond)], r.2.2⟩
  else
    let event := (unmarshal rpopResult.val zeroEvent).1
    ⟨[.txRPopLPush EVENT_KEY PROCESSING_KEY, .go event rpopResult,
      .sleep (100 * Millisecond)], r.2.2⟩

/-- The first `n` iterations of the `for` loop of `deliveryWorker`. `up i` says whether
the store executes the transaction of iteration `i`; `others i` is what the other
actors (producers, fanouts in progress) do to the store during the sleep of
iteration `i`. -/
def deliveryWorkerLoop (unmarshal : String → Event → Event × Bool) :
    Nat → (Nat → Bool) → (Nat → Store → Store) → Store → List Action × Store
  | 0, _, _, s => ([], s)
  | n + 1, up, others, s =>
    let it := deliveryWorkerIter unmarshal (up 0) s
    let rest := deliveryWorkerLoop unmarshal n (fun i => up (i + 1))
      (fun i => others (i + 1)) (others 0 it.store)
    (it.trace ++ rest.1, rest.2)

/-! ## Start-up configuration -/

/-- The fields of `redis.Options` the program sets. -/
structure Options where
  Addr : String
  Password : String
  DB : Int
  deriving DecidableEq, Repr

/-- The call `os.LookupEnv`: the value (empty when unset) and whether it is set. -/
def LookupEnv (env : String → Option String) (key : String) : String × Bool :=
  match env key with
  | some v => (v, true)
  | none => ("", false)

/-- Decimal digits read left to right; `none` at the first character that is not one. -/
def parseDigits : List Char → Nat → Option Nat
  | [], acc => some acc
  | c :: t, acc =>
    if '0' ≤ c ∧ c ≤ '9' then parseDigits t (acc * 10 + (c.toNat - 48)) else none

/-- The call `strconv.Atoi` on a 64-bit platform: an optional sign, then at least one
decimal digit, the value within `int64`; `none` is a returned error. -/
def Atoi (s : String) : Option Int :=
  let signed : Bool × List Char :=
    match s.toList with
    | '-' :: t => (true, t)
    | '+' :: t => (false, t)
    | l => (false, l)
  if signed.2 = [] then none
  else
    match parseDigits signed.2 0 with
    | none => none
    | some n =>
      let v : Int := if signed.1 then -(n : Int) else (n : Int)
      if -2 ^ 63 ≤ v ∧ v < 2 ^ 63 then some v else none

/-- Why `redisClient` panicked. -/
inductive Panic
  | envsNotSet
  | atoi
  deriving DecidableEq, Repr

/-- The function `redisClient`: the options handed to `redis.NewClient`, or the panic. -/
def redisClient (env : String → Option String) : Except Panic Options :=
  let addr := LookupEnv env "REDIS_ADDR"
  let pass := LookupEnv env "REDIS_PASSWORD"
  let db := LookupEnv env "REDIS_DB"
  if !(addr.2 || pass.2 || db.2) then .error .envsNotSet
  else
    match Atoi db.1 with
    | none => .error .atoi
    | some n => .ok ⟨addr.1, pass.1, n⟩

/-- The function `deliveryWorker`, cut after `n` iterations of its endless loop: the
client is built first, and a panic of `redisClient` ends the worker before any
iteration. -/
def deliveryWorker (env : String → Option String)
    (unmarshal : String → Event → Event × Bool) (n : Nat) (up : Nat → Bool)
    (others : Nat → Store → Store) (s : Store) : Except Panic (List Action × Store) :=
  match redisClient env with
  | .error p => .error p
  | .ok _ => .ok (deliveryWorkerLoop unmarshal n up others s)

/-! ## Store protocol -/

/-- One step of the store seen from outside: the move of a worker iteration, the
removal of a fanout, or a producer adding, at either end of the pending queue, a
serialized event that is in neither list. -/
inductive Step : Store → Store → Prop
  | dequeue (up : Bool) (s : Store) :
      Step s (txRPopLPush up s EVENT_KEY PROCESSING_KEY).2.2
  | cleanup (up : Bool) (s : Store) (v : String) :
      Step s (txLRem up s PROCESSING_KEY 0 v).2
  | pushLeft (s : Store) (v : String) (hp : v ∉ s EVENT_KEY) (hf : v ∉ s PROCESSING_KEY) :
      Step s (s.set EVENT_KEY (v :: s EVENT_KEY))
  | pushRight (s : Store) (v : String) (hp : v ∉ s EVENT_KEY) (hf : v ∉ s PROCESSING_KEY) :
      Step s (s.set EVENT_KEY (s EVENT_KEY ++ [v]))

/-- The states reachable from `s0` by the steps. -/
inductive Reachable (s0 : Store) : Store → Prop
  | start : Reachable s0 s0
  | next {s t : Store} : Reachable s0 s → Step s t → Reachable s0 t

/-! ## Vocabulary of the properties -/

/-- A stream of answers that are all failures of `hitEndpoint`. -/
def AlwaysFails (outs : Nat → HttpResult) : Prop :=
  ∀ i, hitEndpoint (outs i) ≠ none

/-- The first success of a stream of answers is its `k`-th one (counted from 1). -/
def FirstSuccessAt (outs : Nat → HttpResult) (k : Nat) : Prop :=
  1 ≤ k ∧ (∀ i, i + 1 < k → hitEndpoint (outs i) ≠ none) ∧ hitEndpoint (outs (k - 1)) = none

/-- The trace of `k` attempts on `endpoint` with, after the `i`-th attempt and before
the next one, a sleep of `2 ^ i` seconds, and nothing after the last attempt. -/
def spacedAttempts (endpoint : String) (k : Nat) : List Action :=
  (List.range k).flatMap fun i =>
    if i + 1 < k then [Action.httpGet endpoint, Action.sleep (2 ^ (i + 1) * Second)]
    else [Action.httpGet endpoint]

/-- The trace `spacedAttempts`, entered with `r` attempts already made. -/
def spacedFrom (endpoint : String) : Nat → Nat → List Action
  | _, 0 => []
  | _, 1 => [.httpGet endpoint]
  | r, k + 2 =>
    .httpGet endpoint :: .sleep (2 ^ (r + 1) * Second) :: spacedFrom endpoint (r + 1) (k + 1)

end EventDelivery

namespace EventDelivery

/-! ## The backoff policy -/

theorem getBackoffDuration_small (r : Nat) (h1 : 1 ≤ r) (h5 : r ≤ 5) :
    getBackoffDuration (r : Int) = some (2 ^ r * Second) := by
  interval_cases r <;> rfl

/-! ## The shape of a dispatcher run -/

theorem spacedFrom_eq_flatMap (ep : String) (k r : Nat) :
    spacedFrom ep r k = (List.range k).flatMap fun i =>
      if i + 1 < k then [Action.httpGet ep, Action.sleep (2 ^ (r + i + 1) * Second)]
      else [Action.httpGet ep] := by
  induction k generalizing r with
  | zero => simp [spacedFrom]
  | succ k ih =>
    cases k with
    | zero => simp [spacedFrom, List.range_succ]
    | succ k =>
      rw [spacedFrom, ih (r + 1), List.range_succ_eq_map (k + 1)]
      simp only [List.flatMap_cons, List.flatMap_map]
      have h0 : (0 : Nat) + 1 < k + 1 + 1 := by omega
      simp only [h0, if_true, Nat.add_zero, List.cons_append, List.nil_append]
      congr 2
      apply List.flatMap_congr
      intro i _
      simp only [Function.comp, Nat.succ_eq_add_one, Nat.add_lt_add_iff_right]
      have e : r + 1 + i + 1 = r + (i + 1) + 1 := by omega
      rw [e]

theorem spacedFrom_zero (ep : String) (k : Nat) : spacedFrom ep 0 k = spacedAttempts ep k := by
  rw [spacedFrom_eq_flatMap]
  simp [spacedAttempts]

theorem attempts_spacedFrom (ep : String) (k r : Nat) :
    attempts (spacedFrom ep r k) = List.replicate k ep := by
  induction k generalizing r with
  | zero => simp [spacedFrom, attempts]
  | succ k ih =>
    cases k with
    | zero => simp [spacedFrom, attempts]
    | succ k =>
      rw [spacedFrom]
      simp only [attempts, ih (r + 1)]
      rfl

theorem sleeps_spacedFrom (ep : String) (k r : Nat) :
    sleeps (spacedFrom ep r k) = (List.range (k - 1)).map fun i => 2 ^ (r + i + 1) * Second := by
  induction k generalizing r with
  | zero => simp [spacedFrom, sleeps]
  | succ k ih =>
    cases k with
    | zero => simp [spacedFrom, sleeps]
    | succ k =>
      rw [spacedFrom]
      simp only [sleeps, ih (r + 1), Nat.add_sub_cancel]
      rw [List.range_succ_eq_map k]
      simp only [List.map_cons, List.map_map, Nat.add_zero]
      congr 1
      apply List.map_congr_left
      intro i _
      simp only [Function.comp, Nat.succ_eq_add_one]
      have e : r + 1 + i + 1 = r + (i + 1) + 1 := by omega
      rw [e]

theorem getLast_spacedFrom (ep : String) (k r : Nat) (hk : 1 ≤ k) :
    (spacedFrom ep r k).getLast? = some (.httpGet ep) := by
  induction k generalizing r with
  | zero => omega
  | succ k ih =>
    cases k with
    | zero => simp [spacedFrom]
    | succ k =>
      rw [spacedFrom]
      have h := ih (r + 1) (by omega)
      cases hs : spacedFrom ep (r + 1) (k + 1) with
      | nil => rw [hs] at h; simp at h
      | cons a t => rw [hs] at h; simpa [List.getLast?_cons_cons] using h

/-- The loop, entered with `retry = r ≤ maxRetries` and fuel for the remaining attempts,
returns after `k` attempts spaced by the backoff durations, where `k` is the position
of the first success among the answers, or exhausts the retries. -/
theorem hitEndpointLoop_run (ep : String) :
    ∀ (fuel r : Nat) (outs : Nat → HttpResult), r ≤ 5 → 6 ≤ r + fuel →
      ∃ k, 1 ≤ k ∧ r + k ≤ 6 ∧
        hitEndpointLoop ep fuel (r : Int) outs = ⟨spacedFrom ep r k, .returned⟩ ∧
        (∀ i, i + 1 < k → hitEndpoint (outs i) ≠ none) ∧
        (hitEndpoint (outs (k - 1)) = none ∨ r + k = 6) := by
  intro fuel
  induction fuel with
  | zero => intro r outs h5 h6; omega
  | succ fuel ih =>
    intro r outs h5 h6
    rw [hitEndpointLoop]
    cases h0 : hitEndpoint (outs 0) with
    | none =>
      refine ⟨1, le_refl 1, by omega, rfl, ?_, Or.inl h0⟩
      intro i hi; omega
    | some e =>
      by_cases hr : r = 5
      · subst hr
        refine ⟨1, le_refl 1, by omega, ?_, ?_, Or.inr rfl⟩
        · simp [maxRetries, spacedFrom]
        · intro i hi; omega
      · have hlt : r + 1 ≤ 5 := by omega
        have hnot : ¬ ((r : Int) + 1 > maxRetries) := by
          simp only [maxRetries, gt_iff_lt, not_lt]; omega
        have hcast : (r : Int) + 1 = ((r + 1 : Nat) : Int) := by push_cast; rfl
        obtain ⟨k, hk1, hk6, hrun, hfail, hlast⟩ :=
          ih (r + 1) (fun i => outs (i + 1)) hlt (by omega)
        have hb := getBackoffDuration_small (r + 1) (by omega) hlt
        refine ⟨k + 1, by omega, by omega, ?_, ?_, ?_⟩
        · dsimp only
          rw [if_neg hnot, hcast, hb]
          dsimp only
          rw [hrun]
          obtain ⟨j, rfl⟩ : ∃ j, k = j + 1 := ⟨k - 1, by omega⟩
          simp [spacedFrom]
        · intro i hi
          cases i with
          | zero => rw [h0]; simp
          | succ i => exact hfail i (by omega)
        · rcases hlast with h | h
          · left
            obtain ⟨j, rfl⟩ : ∃ j, k = j + 1 := ⟨k - 1, by omega⟩
            simpa using h
          · right; omega

/-- The run of the retrying dispatcher, for any answers: it returns after `k` spaced
attempts, `1 ≤ k ≤ 6`. -/
theorem hitEndpointWithBackoff_run (fuel : Nat) (hfuel : 6 ≤ fuel) (outs : Nat → HttpResult)
    (ep : String) (ev : Event) :
    ∃ k, 1 ≤ k ∧ k ≤ 6 ∧
      hitEndpointWithBackoff fuel outs ep ev = ⟨spacedFrom ep 0 k, .returned⟩ ∧
      (∀ i, i + 1 < k → hitEndpoint (outs i) ≠ none) ∧
      (hitEndpoint (outs (k - 1)) = none ∨ k = 6) := by
  obtain ⟨k, h1, h6, hrun, hfail, hlast⟩ := hitEndpointLoop_run ep fuel 0 outs (by omega) (by omega)
  refine ⟨k, h1, by omega, ?_, hfail, ?_⟩
  · simpa [hitEndpointWithBackoff] using hrun
  · rcases hlast with h | h
    · exact Or.inl h
    · right; omega

theorem fuel_of_maxRetries (fuel : Nat) (h : maxRetries < (fuel : Int)) : 6 ≤ fuel := by
  simp only [maxRetries] at h; omega

/-! ## Traces of a fanout -/

theorem attempts_append (a b : List Action) : attempts (a ++ b) = attempts a ++ attempts b := by
  induction a with
  | nil => rfl
  | cons x t ih => cases x <;> simp [attempts, ih]

theorem cleanups_append (a b : List Action) : cleanups (a ++ b) = cleanups a ++ cleanups b := by
  induction a with
  | nil => rfl
  | cons x t ih => cases x <;> simp [cleanups, ih]

theorem cleanups_spacedFrom (ep : String) (k r : Nat) : cleanups (spacedFrom ep r k) = [] := by
  induction k generalizing r with
  | zero => simp [spacedFrom, cleanups]
  | succ k ih =>
    cases k with
    | zero => simp [spacedFrom, cleanups]
    | succ k =>
      rw [spacedFrom]
      simp only [cleanups, ih (r + 1)]

/-- The run of the fanout coordinator, for any answers of the three destinations. -/
theorem fanOutRequests_run (fuel : Nat) (hfuel : 6 ≤ fuel) (net : String → Nat → HttpResult)
    (up : Bool) (event : Event) (rpopResult : StringCmd) (s : Store) :
    ∃ k1 k2 k3, (1 ≤ k1 ∧ k1 ≤ 6) ∧ (1 ≤ k2 ∧ k2 ≤ 6) ∧ (1 ≤ k3 ∧ k3 ≤ 6) ∧
      hitEndpointWithBackoff fuel (net dest1) dest1 event = ⟨spacedFrom dest1 0 k1, .returned⟩ ∧
      hitEndpointWithBackoff fuel (net dest2) dest2 event = ⟨spacedFrom dest2 0 k2, .returned⟩ ∧
      hitEndpointWithBackoff fuel (net dest3) dest3 event = ⟨spacedFrom dest3 0 k3, .returned⟩ ∧
      (fanOutRequests fuel net up event rpopResult s).trace =
        spacedFrom dest1 0 k1 ++ spacedFrom dest2 0 k2 ++ spacedFrom dest3 0 k3 ++
          [.txLRem PROCESSING_KEY 0 rpopResult.val] ∧
      (fanOutRequests fuel net up event rpopResult s).exit = .returned ∧
      (fanOutRequests fuel net up event rpopResult s).store =
        (txLRem up s PROCESSING_KEY 0 rpopResult.val).2 := by
  obtain ⟨k1, a1, b1, h1, _, _⟩ := hitEndpointWithBackoff_run fuel hfuel (net dest1) dest1 event
  obtain ⟨k2, a2, b2, h2, _, _⟩ := hitEndpointWithBackoff_run fuel hfuel (net dest2) dest2 event
  obtain ⟨k3, a3, b3, h3, _, _⟩ := hitEndpointWithBackoff_run fuel hfuel (net dest3) dest3 event
  refine ⟨k1, k2, k3, ⟨a1, b1⟩, ⟨a2, b2⟩, ⟨a3, b3⟩, h1, h2, h3, ?_, ?_, ?_⟩ <;>
    simp [fanOutRequests, h1, h2, h3]

/-! ## The store commands -/

theorem keys_ne : EVENT_KEY ≠ PROCESSING_KEY := by decide

theorem set_same (s : Store) (key : String) (l : List String) : s.set key l key = l := by
  simp [Store.set]

theorem set_other (s : Store) (key k : String) (l : List String) (h : k ≠ key) :
    s.set key l k = s k := by
  simp [Store.set, h]

/-- A successful removal: the in-flight list loses every occurrence of the value and
keeps the rest in order; every other list is unchanged. -/
theorem txLRem_up (s : Store) (v : String) :
    (txLRem true s PROCESSING_KEY 0 v).2 PROCESSING_KEY =
      (s PROCESSING_KEY).filter (fun x => decide (x ≠ v)) ∧
    ∀ k, k ≠ PROCESSING_KEY → (txLRem true s PROCESSING_KEY 0 v).2 k = s k := by
  refine ⟨?_, ?_⟩
  · simp [txLRem, lrem, lremList, set_same]
  · intro k hk
    simp [txLRem, lrem, set_other _ _ _ _ hk]

theorem txLRem_down (s : Store) (key : String) (c : Int) (v : String) :
    (txLRem false s key c v).2 = s := by
  simp [txLRem]

/-- A move that fails or gives no value changes nothing. -/
theorem txRPopLPush_failed (up : Bool) (s : Store) (src dst : String)
    (h : (txRPopLPush up s src dst).2.1 ≠ none ∨ (txRPopLPush up s src dst).1.err ≠ none) :
    (txRPopLPush up s src dst).2.2 = s ∧ (txRPopLPush up s src dst).2.1 ≠ none := by
  cases up with
  | false => simp [txRPopLPush]
  | true =>
    simp only [txRPopLPush, rpoplpush, if_true] at h ⊢
    cases hl : (s src).getLast? with
    | none => simp
    | some v => rw [hl] at h; simp at h

theorem txRPopLPush_empty (up : Bool) (s : Store) (src dst : String) (h : s src = []) :
    (txRPopLPush up s src dst).2.1 ≠ none := by
  cases up <;> simp [txRPopLPush, rpoplpush, h]

/-- A move that gives a value: the value is the last element of the pending queue,
which loses it, and the in-flight list gains it on the left. -/
theorem txRPopLPush_moved (up : Bool) (s : Store)
    (h1 : (txRPopLPush up s EVENT_KEY PROCESSING_KEY).2.1 = none) :
    (txRPopLPush up s EVENT_KEY PROCESSING_KEY).1.err = none ∧
    (s EVENT_KEY).getLast? = some (txRPopLPush up s EVENT_KEY PROCESSING_KEY).1.val ∧
    (txRPopLPush up s EVENT_KEY PROCESSING_KEY).2.2 EVENT_KEY = (s EVENT_KEY).dropLast ∧
    (txRPopLPush up s EVENT_KEY PROCESSING_KEY).2.2 PROCESSING_KEY =
      (txRPopLPush up s EVENT_KEY PROCESSING_KEY).1.val :: s PROCESSING_KEY ∧
    ∀ k, k ≠ EVENT_KEY → k ≠ PROCESSING_KEY →
      (txRPopLPush up s EVENT_KEY PROCESSING_KEY).2.2 k = s k := by
  cases up with
  | false => simp [txRPopLPush] at h1
  | true =>
    simp only [txRPopLPush, rpoplpush, if_true] at h1 ⊢
    cases hl : (s EVENT_KEY).getLast? with
    | none => rw [hl] at h1; simp at h1
    | some v =>
      have hne := keys_ne
      refine ⟨rfl, rfl, ?_, ?_, ?_⟩
      · simp [Store.set, hne]
      · simp [Store.set, hne.symm]
      · intro k hk1 hk2
        simp [Store.set, hk1, hk2]

/-! ## Properties of the backoff policy and the retrying dispatcher -/

/-- C1: for every retry number `n` with `1 ≤ n ≤ 5`, `getBackoffDuration n` is exactly
one second times `2 ^ n`, a value below `2 ^ 63` (no wrap-around); retries 1 to 5 give
2 s, 4 s, 8 s, 16 s and 32 s. -/
theorem getBackoffDuration_exact (n : Int) (h1 : 1 ≤ n) (h5 : n ≤ 5) :
    getBackoffDuration n = some (1 * Second * 2 ^ n.toNat) ∧
    1 * Second * 2 ^ n.toNat < 2 ^ 63 ∧
    getBackoffDuration 1 = some (2 * Second) ∧
    getBackoffDuration 2 = some (4 * Second) ∧
    getBackoffDuration 3 = some (8 * Second) ∧
    getBackoffDuration 4 = some (16 * Second) ∧
    getBackoffDuration 5 = some (32 * Second) := by
  interval_cases n <;> exact ⟨rfl, by decide, rfl, rfl, rfl, rfl, rfl⟩

theorem getBackoffDuration_exact_witness :
    getBackoffDuration 3 = some (1 * Second * 2 ^ (3 : Int).toNat) ∧
    getBackoffDuration 3 = some (8 * Second) :=
  ⟨(getBackoffDuration_exact 3 (by decide) (by decide)).1,
    (getBackoffDuration_exact 3 (by decide) (by decide)).2.2.2.2.1⟩

/-- C2: with more fuel than `maxRetries`, on a destination whose every attempt fails,
`hitEndpointWithBackoff` returns after exactly `maxRetries + 1 = 6` attempts, the
sixth attempt being its last effect. -/
theorem hitEndpointWithBackoff_always_fails (fuel : Nat) (hfuel : maxRetries < (fuel : Int))
    (outs : Nat → HttpResult) (ep : String) (ev : Event) (hf : AlwaysFails outs) :
    (hitEndpointWithBackoff fuel outs ep ev).exit = .returned ∧
    attempts (hitEndpointWithBackoff fuel outs ep ev).trace = List.replicate 6 ep ∧
    ((attempts (hitEndpointWithBackoff fuel outs ep ev).trace).length : Int) = maxRetries + 1 ∧
    (hitEndpointWithBackoff fuel outs ep ev).trace.getLast? = some (.httpGet ep) := by
  obtain ⟨k, h1, _, hrun, _, hlast⟩ :=
    hitEndpointWithBackoff_run fuel (fuel_of_maxRetries fuel hfuel) outs ep ev
  have hk : k = 6 := by
    rcases hlast with h | h
    · exact absurd h (hf _)
    · exact h
  subst hk
  rw [hrun]
  refine ⟨rfl, attempts_spacedFrom ep 6 0, ?_, getLast_spacedFrom ep 6 0 h1⟩
  simp [attempts_spacedFrom, maxRetries]

theorem hitEndpointWithBackoff_always_fails_witness :
    AlwaysFails (fun _ => HttpResult.response 503) ∧
    attempts (hitEndpointWithBackoff 6 (fun _ => HttpResult.response 503) dest2 zeroEvent).trace
      = List.replicate 6 dest2 :=
  ⟨fun _ => by simp [hitEndpoint, StatusOK],
    (hitEndpointWithBackoff_always_fails 6 (by decide) (fun _ => HttpResult.response 503) dest2
      zeroEvent (fun _ => by simp [hitEndpoint, StatusOK])).2.1⟩

/-- C3: with more fuel than `maxRetries`, when the first success among the answers is
the `k`-th one and `k ≤ maxRetries + 1`, `hitEndpointWithBackoff` returns after exactly
`k` attempts and `k - 1` sleeps, the successful attempt being its last effect. -/
theorem hitEndpointWithBackoff_first_success (fuel : Nat) (hfuel : maxRetries < (fuel : Int))
    (outs : Nat → HttpResult) (ep : String) (ev : Event) (k : Nat)
    (hk : FirstSuccessAt outs k) (hk6 : (k : Int) ≤ maxRetries + 1) :
    (hitEndpointWithBackoff fuel outs ep ev).exit = .returned ∧
    attempts (hitEndpointWithBackoff fuel outs ep ev).trace = List.replicate k ep ∧
    (sleeps (hitEndpointWithBackoff fuel outs ep ev).trace).length = k - 1 ∧
    (hitEndpointWithBackoff fuel outs ep ev).trace.getLast? = some (.httpGet ep) := by
  obtain ⟨j, h1, _, hrun, hfail, hlast⟩ :=
    hitEndpointWithBackoff_run fuel (fuel_of_maxRetries fuel hfuel) outs ep ev
  obtain ⟨hk1, hkfail, hksucc⟩ := hk
  have hk6n : k ≤ 6 := by simp only [maxRetries] at hk6; omega
  have hjk : j = k := by
    rcases Nat.lt_trichotomy j k with h | h | h
    · rcases hlast with hl | hl
      · exact absurd hl (hkfail (j - 1) (by omega))
      · omega
    · exact h
    · exact absurd hksucc (hfail (k - 1) (by omega))
  subst hjk
  rw [hrun]
  refine ⟨rfl, attempts_spacedFrom ep j 0, ?_, getLast_spacedFrom ep j 0 h1⟩
  simp [sleeps_spacedFrom]

theorem hitEndpointWithBackoff_first_success_witness :
    FirstSuccessAt (fun i => if i = 2 then HttpResult.response 200 else .transportError) 3 ∧
    attempts (hitEndpointWithBackoff 6
      (fun i => if i = 2 then HttpResult.response 200 else .transportError) dest1 zeroEvent).trace
      = List.replicate 3 dest1 :=
  have h : FirstSuccessAt (fun i => if i = 2 then HttpResult.response 200 else .transportError) 3 :=
    ⟨by decide, fun i hi => by
      have h2 : i ≠ 2 := by omega
      simp [h2, hitEndpoint], by decide⟩
  ⟨h, (hitEndpointWithBackoff_first_success 6 (by decide) _ dest1 zeroEvent 3 h (by decide)).2.1⟩

/-- C4: with more fuel than `maxRetries`, for any answers, the trace of
`hitEndpointWithBackoff` is `k` attempts (`1 ≤ k ≤ 6`) with exactly one sleep between
the `i`-th attempt and the next, of `getBackoffDuration i = 2 ^ i` seconds, and no
sleep after the last attempt; when every attempt fails, the sleeps are 2 s, 4 s, 8 s,
16 s, 32 s in that order. -/
theorem hitEndpointWithBackoff_waits (fuel : Nat) (hfuel : maxRetries < (fuel : Int))
    (outs : Nat → HttpResult) (ep : String) (ev : Event) :
    (∃ k, 1 ≤ k ∧ k ≤ 6 ∧
      (hitEndpointWithBackoff fuel outs ep ev).trace = spacedAttempts ep k ∧
      (sleeps (hitEndpointWithBackoff fuel outs ep ev).trace).map some =
        (List.range (k - 1)).map (fun i => getBackoffDuration ((i + 1 : Nat) : Int)) ∧
      (hitEndpointWithBackoff fuel outs ep ev).trace.getLast? = some (.httpGet ep)) ∧
    (AlwaysFails outs →
      (hitEndpointWithBackoff fuel outs ep ev).trace = spacedAttempts ep 6 ∧
      sleeps (hitEndpointWithBackoff fuel outs ep ev).trace =
        [2 * Second, 4 * Second, 8 * Second, 16 * Second, 32 * Second]) := by
  obtain ⟨k, h1, h6, hrun, _, hlast⟩ :=
    hitEndpointWithBackoff_run fuel (fuel_of_maxRetries fuel hfuel) outs ep ev
  rw [hrun]
  refine ⟨⟨k, h1, h6, spacedFrom_zero ep k, ?_, getLast_spacedFrom ep k 0 h1⟩, ?_⟩
  · simp only [sleeps_spacedFrom, List.map_map]
    apply List.map_congr_left
    intro i hi
    have hi5 : i < k - 1 := List.mem_range.mp hi
    simp only [Function.comp, Nat.zero_add]
    exact (getBackoffDuration_small (i + 1) (by omega) (by omega)).symm
  · intro hf
    have hk : k = 6 := by
      rcases hlast with h | h
      · exact absurd h (hf _)
      · exact h
    subst hk
    exact ⟨spacedFrom_zero ep 6, by simp only [sleeps_spacedFrom]; decide⟩

theorem hitEndpointWithBackoff_waits_witness :
    sleeps (hitEndpointWithBackoff 6 (fun _ => HttpResult.transportError) dest2 zeroEvent).trace =
      [2 * Second, 4 * Second, 8 * Second, 16 * Second, 32 * Second] :=
  ((hitEndpointWithBackoff_waits 6 (by decide) (fun _ => HttpResult.transportError) dest2
    zeroEvent).2 (fun _ => by simp [hitEndpoint, StatusOK])).2

/-! ## Properties of the fanout coordinator -/

/-- C5: with more fuel than `maxRetries`, for any event and any answers of the three
destinations, the trace of `fanOutRequests` is the run of the retrying dispatcher on
dest-1, then its run on dest-2, then its run on dest-3, then the removal; each
destination receives at least one attempt and all the attempts on a destination come
before the first attempt on the next one. -/
theorem fanOutRequests_order (fuel : Nat) (hfuel : maxRetries < (fuel : Int))
    (net : String → Nat → HttpResult) (up : Bool) (event : Event) (rpopResult : StringCmd)
    (s : Store) :
    (fanOutRequests fuel net up event rpopResult s).trace =
      (hitEndpointWithBackoff fuel (net dest1) dest1 event).trace ++
      (hitEndpointWithBackoff fuel (net dest2) dest2 event).trace ++
      (hitEndpointWithBackoff fuel (net dest3) dest3 event).trace ++
      [.txLRem PROCESSING_KEY 0 rpopResult.val] ∧
    ∃ k1 k2 k3, (1 ≤ k1 ∧ k1 ≤ 6) ∧ (1 ≤ k2 ∧ k2 ≤ 6) ∧ (1 ≤ k3 ∧ k3 ≤ 6) ∧
      attempts (fanOutRequests fuel net up event rpopResult s).trace =
        List.replicate k1 dest1 ++ List.replicate k2 dest2 ++ List.replicate k3 dest3 := by
  obtain ⟨k1, k2, k3, b1, b2, b3, h1, h2, h3, htr, _, _⟩ :=
    fanOutRequests_run fuel (fuel_of_maxRetries fuel hfuel) net up event rpopResult s
  refine ⟨?_, k1, k2, k3, b1, b2, b3, ?_⟩
  · rw [htr, h1, h2, h3]
  · rw [htr]
    simp [attempts_append, attempts_spacedFrom, attempts]

theorem fanOutRequests_order_witness :
    attempts (fanOutRequests 6
      (fun ep _ => if ep = dest1 then HttpResult.transportError else .response 200) true
      zeroEvent ⟨"e", none⟩ (fun _ => [])).trace =
      (hitEndpointWithBackoff 6 (fun _ => HttpResult.transportError) dest1 zeroEvent).trace.filterMap
        (fun a => match a with
          | .httpGet ep => some ep
          | _ => none) ++ [dest2, dest3] := by
  have h := (fanOutRequests_order 6 (by decide)
    (fun ep _ => if ep = dest1 then HttpResult.transportError else .response 200) true
    zeroEvent ⟨"e", none⟩ (fun _ => [])).1
  rw [h]
  decide

/-- C6: with more fuel than `maxRetries`, for any store, any dequeued string `v` and any
answers of the destinations, `fanOutRequests` returns, and its removal of `v` from the
in-flight list is performed exactly once, as the last effect, after every delivery
attempt; when the store executes it, the in-flight list becomes the former one without
any occurrence of `v`, the other entries in their order, and every other list (the
pending queue among them) is unchanged. -/
theorem fanOutRequests_cleanup (fuel : Nat) (hfuel : maxRetries < (fuel : Int))
    (net : String → Nat → HttpResult) (up : Bool) (event : Event) (rpopResult : StringCmd)
    (s : Store) :
    (fanOutRequests fuel net up event rpopResult s).exit = .returned ∧
    (∃ tr, (fanOutRequests fuel net up event rpopResult s).trace =
        tr ++ [.txLRem PROCESSING_KEY 0 rpopResult.val] ∧
      cleanups tr = [] ∧ 3 ≤ (attempts tr).length) ∧
    cleanups (fanOutRequests fuel net up event rpopResult s).trace =
      [(PROCESSING_KEY, 0, rpopResult.val)] ∧
    (up = true →
      (fanOutRequests fuel net up event rpopResult s).store PROCESSING_KEY =
        (s PROCESSING_KEY).filter (fun x => decide (x ≠ rpopResult.val)) ∧
      (fanOutRequests fuel net up event rpopResult s).store EVENT_KEY = s EVENT_KEY ∧
      ∀ k, k ≠ PROCESSING_KEY →
        (fanOutRequests fuel net up event rpopResult s).store k = s k) := by
  obtain ⟨k1, k2, k3, b1, b2, b3, _, _, _, htr, hexit, hstore⟩ :=
    fanOutRequests_run fuel (fuel_of_maxRetries fuel hfuel) net up event rpopResult s
  refine ⟨hexit, ⟨_, htr, ?_, ?_⟩, ?_, ?_⟩
  · simp [cleanups_append, cleanups_spacedFrom]
  · simp only [attempts_append, attempts_spacedFrom, List.length_append, List.length_replicate]
    omega
  · rw [htr]
    simp [cleanups_append, cleanups_spacedFrom, cleanups]
  · intro hup
    subst hup
    rw [hstore]
    exact ⟨(txLRem_up s rpopResult.val).1, (txLRem_up s rpopResult.val).2 _ keys_ne,
      (txLRem_up s rpopResult.val).2⟩

theorem fanOutRequests_cleanup_witness :
    (fanOutRequests 6 (fun _ _ => HttpResult.transportError) true zeroEvent ⟨"a", none⟩
      (fun k => if k = PROCESSING_KEY then ["b", "a", "c", "a"] else ["a"])).store PROCESSING_KEY =
      ["b", "c"] ∧
    (fanOutRequests 6 (fun _ _ => HttpResult.transportError) true zeroEvent ⟨"a", none⟩
      (fun k => if k = PROCESSING_KEY then ["b", "a", "c", "a"] else ["a"])).store EVENT_KEY =
      ["a"] := by
  have h := (fanOutRequests_cleanup 6 (by decide) (fun _ _ => HttpResult.transportError) true
    zeroEvent ⟨"a", none⟩
    (fun k => if k = PROCESSING_KEY then ["b", "a", "c", "a"] else ["a"])).2.2.2 rfl
  refine ⟨h.1.trans (by decide), h.2.1.trans (by decide)⟩

/-! ## Properties of the dequeue loop -/

/-- C7: in an iteration of the `deliveryWorker` loop whose move fails or gives no value,
as it does whenever the pending queue is empty, the store is unchanged, no fanout is
started, the only effects are the move transaction and one sleep of 100 ms, and the
loop goes on with the move transaction of the next iteration. -/
theorem deliveryWorkerIter_idle (unmarshal : String → Event → Event × Bool) (up : Bool)
    (s : Store)
    (h : s EVENT_KEY = [] ∨ (txRPopLPush up s EVENT_KEY PROCESSING_KEY).2.1 ≠ none ∨
      (txRPopLPush up s EVENT_KEY PROCESSING_KEY).1.err ≠ none) :
    (deliveryWorkerIter unmarshal up s).store = s ∧
    (deliveryWorkerIter unmarshal up s).trace =
      [.txRPopLPush EVENT_KEY PROCESSING_KEY, .sleep (100 * Millisecond)] ∧
    100 * Millisecond = 100000000 ∧
    ∀ (n : Nat) (ups : Nat → Bool) (others : Nat → Store → Store), ups 0 = up →
      ∃ rest, (deliveryWorkerLoop unmarshal (n + 2) ups others s).1 =
        [.txRPopLPush EVENT_KEY PROCESSING_KEY, .sleep (100 * Millisecond),
          .txRPopLPush EVENT_KEY PROCESSING_KEY] ++ rest := by
  have h2 : (txRPopLPush up s EVENT_KEY PROCESSING_KEY).2.1 ≠ none ∨
      (txRPopLPush up s EVENT_KEY PROCESSING_KEY).1.err ≠ none := by
    rcases h with h | h
    · exact Or.inl (txRPopLPush_empty up s _ _ h)
    · exact h
  obtain ⟨hs, he⟩ := txRPopLPush_failed up s _ _ h2
  have hit : deliveryWorkerIter unmarshal up s =
      ⟨[.txRPopLPush EVENT_KEY PROCESSING_KEY, .sleep (100 * Millisecond)], s⟩ := by
    simp only [deliveryWorkerIter, he, hs, if_true, ne_eq, not_false_eq_true]
  refine ⟨by rw [hit], by rw [hit], by decide, ?_⟩
  intro n ups others hup
  have hnext : ∀ (u : Bool) (t : Store), ∃ r,
      (deliveryWorkerIter unmarshal u t).trace = .txRPopLPush EVENT_KEY PROCESSING_KEY :: r := by
    intro u t
    simp only [deliveryWorkerIter]
    split
    · exact ⟨_, rfl⟩
    · split
      · exact ⟨_, rfl⟩
      · exact ⟨_, rfl⟩
  obtain ⟨r, hr⟩ := hnext (ups 1) (others 0 s)
  refine ⟨r ++ (deliveryWorkerLoop unmarshal n (fun i => ups (i + 1 + 1))
    (fun i => others (i + 1 + 1))
    (others 1 (deliveryWorkerIter unmarshal (ups 1) (others 0 s)).store)).1, ?_⟩
  simp only [deliveryWorkerLoop, hup, hit, hr]
  simp

theorem deliveryWorkerIter_idle_witness :
    (deliveryWorkerIter (fun _ e => (e, true)) true
      (fun k => if k = PROCESSING_KEY then ["x"] else [])).trace =
      [.txRPopLPush EVENT_KEY PROCESSING_KEY, .sleep (100 * Millisecond)] :=
  (deliveryWorkerIter_idle (fun _ e => (e, true)) true
    (fun k => if k = PROCESSING_KEY then ["x"] else []) (Or.inl (by decide))).2.1

/-- C10: in an iteration of the `deliveryWorker` loop whose move gives a value `v`,
whatever `json.Unmarshal` does with `v` and whether or not it reports an error, exactly
one fanout is started, with the event left in the target of the decoding and with `v`
itself; that fanout, given more fuel than `maxRetries`, attempts all three
destinations and then removes the very string `v` that the move put on the in-flight
list. -/
theorem deliveryWorkerIter_dispatch (unmarshal : String → Event → Event × Bool) (up : Bool)
    (s : Store) (h : (txRPopLPush up s EVENT_KEY PROCESSING_KEY).2.1 = none) :
    ∃ v, (s EVENT_KEY).getLast? = some v ∧
      (deliveryWorkerIter unmarshal up s).trace =
        [.txRPopLPush EVENT_KEY PROCESSING_KEY, .go (unmarshal v zeroEvent).1 ⟨v, none⟩,
          .sleep (100 * Millisecond)] ∧
      (deliveryWorkerIter unmarshal up s).store PROCESSING_KEY = v :: s PROCESSING_KEY ∧
      (deliveryWorkerIter unmarshal up s).store EVENT_KEY = (s EVENT_KEY).dropLast ∧
      ∀ (fuel : Nat), maxRetries < (fuel : Int) →
        ∀ (net : String → Nat → HttpResult) (up2 : Bool) (s2 : Store),
          (fanOutRequests fuel net up2 (unmarshal v zeroEvent).1 ⟨v, none⟩ s2).exit = .returned ∧
          dest1 ∈ attempts (fanOutRequests fuel net up2 (unmarshal v zeroEvent).1 ⟨v, none⟩ s2).trace ∧
          dest2 ∈ attempts (fanOutRequests fuel net up2 (unmarshal v zeroEvent).1 ⟨v, none⟩ s2).trace ∧
          dest3 ∈ attempts (fanOutRequests fuel net up2 (unmarshal v zeroEvent).1 ⟨v, none⟩ s2).trace ∧
          cleanups (fanOutRequests fuel net up2 (unmarshal v zeroEvent).1 ⟨v, none⟩ s2).trace =
            [(PROCESSING_KEY, 0, v)] ∧
          (fanOutRequests fuel net up2 (unmarshal v zeroEvent).1 ⟨v, none⟩ s2).trace.getLast? =
            some (.txLRem PROCESSING_KEY 0 v) := by
  obtain ⟨herr, hlast, hpend, hfl, _⟩ := txRPopLPush_moved up s h
  have hcmd : (txRPopLPush up s EVENT_KEY PROCESSING_KEY).1 =
      ⟨(txRPopLPush up s EVENT_KEY PROCESSING_KEY).1.val, none⟩ := by
    cases hc : (txRPopLPush up s EVENT_KEY PROCESSING_KEY).1 with
    | mk val err =>
      rw [hc] at herr
      simp only at herr
      rw [herr]
  have hit : deliveryWorkerIter unmarshal up s =
      ⟨[.txRPopLPush EVENT_KEY PROCESSING_KEY,
        .go (unmarshal (txRPopLPush up s EVENT_KEY PROCESSING_KEY).1.val zeroEvent).1
          ⟨(txRPopLPush up s EVENT_KEY PROCESSING_KEY).1.val, none⟩,
        .sleep (100 * Millisecond)], (txRPopLPush up s EVENT_KEY PROCESSING_KEY).2.2⟩ := by
    simp only [deliveryWorkerIter, h, herr, ne_eq, not_true_eq_false, if_false]
    rw [← hcmd]
  refine ⟨_, hlast, by rw [hit], by rw [hit]; exact hfl, by rw [hit]; exact hpend, ?_⟩
  intro fuel hfuel net up2 s2
  obtain ⟨k1, k2, k3, b1, b2, b3, _, _, _, htr, hexit, _⟩ :=
    fanOutRequests_run fuel (fuel_of_maxRetries fuel hfuel) net up2
      (unmarshal (txRPopLPush up s EVENT_KEY PROCESSING_KEY).1.val zeroEvent).1
      ⟨(txRPopLPush up s EVENT_KEY PROCESSING_KEY).1.val, none⟩ s2
  refine ⟨hexit, ?_, ?_, ?_, ?_, ?_⟩
  · rw [htr]
    simp only [attempts_append, attempts_spacedFrom, List.mem_append, List.mem_replicate]
    exact Or.inl (Or.inl (Or.inl ⟨by omega, trivial⟩))
  · rw [htr]
    simp only [attempts_append, attempts_spacedFrom, List.mem_append, List.mem_replicate]
    exact Or.inl (Or.inl (Or.inr ⟨by omega, trivial⟩))
  · rw [htr]
    simp only [attempts_append, attempts_spacedFrom, List.mem_append, List.mem_replicate]
    exact Or.inl (Or.inr ⟨by omega, trivial⟩)
  · rw [htr]
    simp [cleanups_append, cleanups_spacedFrom, cleanups]
  · rw [htr]
    simp

theorem deliveryWorkerIter_dispatch_witness :
    ∃ v, (["not json", "\x7b"] : List String).getLast? = some v ∧
      (deliveryWorkerIter (fun _ e => (e, true)) true
        (fun k => if k = EVENT_KEY then ["not json", "\x7b"] else [])).trace =
        [.txRPopLPush EVENT_KEY PROCESSING_KEY, .go zeroEvent ⟨v, none⟩,
          .sleep (100 * Millisecond)] := by
  obtain ⟨v, hv, htr, _⟩ := deliveryWorkerIter_dispatch (fun _ e => (e, true)) true
    (fun k => if k = EVENT_KEY then ["not json", "\x7b"] else []) (by decide)
  exact ⟨v, hv, htr⟩

/-! ## Properties of the start-up configuration -/

/-- The environments in which `redisClient` returns a client: those where `REDIS_DB` is
set to a string that `strconv.Atoi` accepts. -/
theorem redisClient_ok_iff (env : String → Option String) :
    (∃ o, redisClient env = .ok o) ↔ ∃ d n, env "REDIS_DB" = some d ∧ Atoi d = some n := by
  constructor
  · rintro ⟨o, ho⟩
    cases hd : env "REDIS_DB" with
    | none =>
      simp only [redisClient, LookupEnv, hd] at ho
      split at ho
      · cases ho
      · have he : Atoi "" = none := by decide
        rw [he] at ho
        cases ho
    | some d =>
      cases hn : Atoi d with
      | none =>
        simp only [redisClient, LookupEnv, hd, hn] at ho
        split at ho <;> cases ho
      | some n => exact ⟨d, n, rfl, hn⟩
  · rintro ⟨d, n, hd, hn⟩
    refine ⟨⟨(LookupEnv env "REDIS_ADDR").1, (LookupEnv env "REDIS_PASSWORD").1, n⟩, ?_⟩
    simp [redisClient, LookupEnv, hd, hn]

/-- C8: in the environment where only `REDIS_DB` is set, to `0`, so that `REDIS_ADDR`
and `REDIS_PASSWORD` are missing, `redisClient` does not panic: it returns a client
with an empty address and an empty password. -/
theorem redisClient_missing_settings :
    (fun k => if k = "REDIS_DB" then some "0" else none : String → Option String) "REDIS_ADDR"
      = none ∧
    (fun k => if k = "REDIS_DB" then some "0" else none : String → Option String) "REDIS_PASSWORD"
      = none ∧
    redisClient (fun k => if k = "REDIS_DB" then some "0" else none) = .ok ⟨"", "", 0⟩ := by
  refine ⟨by decide, by decide, ?_⟩
  rfl

/-! ## Properties of the store protocol -/

/-- No value occurs twice in the pending queue followed by the in-flight list. -/
theorem step_nodup {s t : Store} (h : Step s t)
    (hs : (s EVENT_KEY ++ s PROCESSING_KEY).Nodup) :
    (t EVENT_KEY ++ t PROCESSING_KEY).Nodup := by
  cases h with
  | dequeue up _ =>
    by_cases h1 : (txRPopLPush up s EVENT_KEY PROCESSING_KEY).2.1 = none
    · obtain ⟨_, hlast, hpend, hfl, _⟩ := txRPopLPush_moved up s h1
      rw [hpend, hfl]
      have hl := List.dropLast_append_getLast? _ hlast
      rw [← hl, List.append_assoc] at hs
      simpa using hs
    · rw [(txRPopLPush_failed up s _ _ (Or.inl h1)).1]
      exact hs
  | cleanup up _ v =>
    cases up with
    | false => rw [txLRem_down]; exact hs
    | true =>
      rw [(txLRem_up s v).1, (txLRem_up s v).2 _ keys_ne]
      exact hs.sublist (List.Sublist.append (List.Sublist.refl _) (List.filter_sublist _))
  | pushLeft _ v hp hf =>
    rw [set_same, set_other _ _ _ _ keys_ne.symm]
    simp only [List.cons_append, List.nodup_cons, List.mem_append, not_or]
    exact ⟨⟨hp, hf⟩, hs⟩
  | pushRight _ v hp hf =>
    rw [set_same, set_other _ _ _ _ keys_ne.symm]
    rw [List.append_assoc, List.singleton_append, List.nodup_middle]
    simp only [List.nodup_cons, List.mem_append, not_or]
    exact ⟨⟨hp, hf⟩, hs⟩

theorem reachable_nodup {s0 s : Store} (hr : Reachable s0 s)
    (h0 : (s0 EVENT_KEY ++ s0 PROCESSING_KEY).Nodup) :
    (s EVENT_KEY ++ s PROCESSING_KEY).Nodup := by
  induction hr with
  | start => exact h0
  | next _ hstep ih => exact step_nodup hstep ih

/-- C9: from a store with an empty in-flight list and a pending queue without duplicate
values, every state reached by dequeue moves, removals and producer pushes of a value
that is in neither list keeps each serialized event in at most one of the two lists
and at most once in it. -/
theorem reachable_exclusive (s0 s : Store) (h0 : s0 PROCESSING_KEY = [])
    (hnd : (s0 EVENT_KEY).Nodup) (hr : Reachable s0 s) :
    (s EVENT_KEY).Nodup ∧ (s PROCESSING_KEY).Nodup ∧
    (∀ e, ¬ (e ∈ s EVENT_KEY ∧ e ∈ s PROCESSING_KEY)) ∧
    ∀ e, (s EVENT_KEY).count e + (s PROCESSING_KEY).count e ≤ 1 := by
  have h := reachable_nodup hr (by rw [h0, List.append_nil]; exact hnd)
  have hc := List.nodup_iff_count_le_one.mp h
  obtain ⟨hp, hf, hd⟩ := List.nodup_append.mp h
  refine ⟨hp, hf, ?_, ?_⟩
  · rintro e ⟨h1, h2⟩
    exact hd h1 h2
  · intro e
    have := hc e
    rwa [List.count_append] at this

theorem reachable_exclusive_witness :
    ((txRPopLPush true (fun k => if k = EVENT_KEY then ["a", "b"] else [])
      EVENT_KEY PROCESSING_KEY).2.2 PROCESSING_KEY = ["b"]) ∧
    ∀ e, ((txRPopLPush true (fun k => if k = EVENT_KEY then ["a", "b"] else [])
        EVENT_KEY PROCESSING_KEY).2.2 EVENT_KEY).count e +
      ((txRPopLPush true (fun k => if k = EVENT_KEY then ["a", "b"] else [])
        EVENT_KEY PROCESSING_KEY).2.2 PROCESSING_KEY).count e ≤ 1 :=
  ⟨by decide,
    (reachable_exclusive (fun k => if k = EVENT_KEY then ["a", "b"] else []) _ (by decide)
      (by decide) (Reachable.next Reachable.start (Step.dequeue true _))).2.2.2⟩

end EventDelivery
